import Mathlib

/-!
# Verification of the openclaw memory-lancedb core

Shallow embedding of the per-session `SessionJournal` (session-journal.ts,
bundled in `src/extensions/memory-lancedb/config.ts`) and of the
`LLMDecisionMaker` evaluation loop (decision-maker.ts), together with proofs
about the spec's testable properties.

All definitions are translated from the TypeScript source.  JavaScript
numbers that only pass through the code opaquely (the `importance` score)
are modelled as `Rat`; integer indices as `Int`/`Nat` as appropriate.
-/

namespace OpenClaw

/-! ## Data model (session-journal.ts) -/

/-- `role: "user" | "assistant"` of a `CleanMessage`. -/
inductive Role where
  | user
  | assistant
deriving DecidableEq, Repr

/-- String form of a role, as it appears in the template literals. -/
def Role.str : Role → String
  | .user => "user"
  | .assistant => "assistant"

/-- `CleanMessage` — a plain-text conversational turn. -/
structure CleanMessage where
  role : Role
  text : String
deriving DecidableEq, Repr

/-- `action: "store" | "forget" | "update"` of a `MemoryLogEntry`. -/
inductive MAction where
  | store
  | forget
  | update
deriving DecidableEq, Repr

/-- String form of an action (used in tool-result messages). -/
def MAction.str : MAction → String
  | .store => "store"
  | .forget => "forget"
  | .update => "update"

/-- `MemoryLogEntry` — one executed memory operation. -/
structure MemoryLogEntry where
  deltaIndex : Nat
  action : MAction
  memoryId : String
  text : String
  timestamp : Nat
deriving DecidableEq, Repr

/-- `JournalData` — per-session journal state.  `processedIndex` is a plain
JavaScript number set verbatim by `commitDecisions`, so it is modelled as
`Int` (the code never clamps it). -/
structure JournalData where
  processedIndex : Int
  cleanContext : List CleanMessage
  memoryLogs : List MemoryLogEntry
deriving DecidableEq, Repr

/-- The fresh journal produced when no prior state exists
(`{ processedIndex: 0, cleanContext: [], memoryLogs: [] }`). -/
def freshJournal : JournalData := ⟨0, [], []⟩

/-- The dedup key `` `${m.role}:${m.text}` `` used in `appendMessages`. -/
def msgKey (m : CleanMessage) : String := m.role.str ++ ":" ++ m.text

/-- JavaScript `Array.prototype.slice(begin)` with a single argument:
a negative index counts from the end, an index past the end yields `[]`. -/
def jsSlice {α : Type} (l : List α) (i : Int) : List α :=
  l.drop (if i < 0 then ((l.length : Int) + i).toNat else i.toNat)

/-! ## Session state machine (one session key)

The journal serializes all operations for one key through a FIFO promise
chain, so the per-key behaviour is a sequential state machine over the
in-memory cache entry and the on-disk file for that key.  The file content
is represented at the parse level: `missing` (read fails), `corrupt`
(`JSON.parse` throws), or `saved data`. -/

/-- Parse-level content of a session's journal file. -/
inductive FileState where
  | missing
  | corrupt
  | saved (data : JournalData)
deriving DecidableEq, Repr

/-- Per-session state: the cache entry for this key plus the file. -/
structure SessionState where
  cache : Option JournalData
  file : FileState
deriving DecidableEq, Repr

/-- A fresh session: nothing cached, no file. -/
def initialSession : SessionState := ⟨none, .missing⟩

/-- `SessionJournal.load`: cache hit returns the cached journal; otherwise
read + parse the file, falling back to a fresh journal on any failure;
either way the result is cached. -/
def load (s : SessionState) : JournalData × SessionState :=
  match s.cache with
  | some j => (j, s)
  | none =>
    match s.file with
    | .saved d => (d, { s with cache := some d })
    | _ => (freshJournal, { s with cache := some freshJournal })

/-- `SessionJournal.save`: cache the data and atomically replace the file
(the temp-write/rename discipline is modelled separately below). -/
def save (s : SessionState) (data : JournalData) : SessionState :=
  { s with cache := some data, file := .saved data }

/-- `SessionJournal.appendMessages` body (inside the per-key queue):
dedup against the keys already in `cleanContext`, append the survivors,
save only if anything changed, return the full journal plus the
unprocessed delta `cleanContext.slice(processedIndex)`. -/
def appendMessages (s : SessionState) (messages : List CleanMessage) :
    (JournalData × List CleanMessage) × SessionState :=
  let journal := (load s).1
  let existing := journal.cleanContext.map msgKey
  let fresh := messages.filter (fun m => !(existing.contains (msgKey m)))
  let journal₂ :=
    if fresh.length > 0 then
      { journal with cleanContext := journal.cleanContext ++ fresh }
    else journal
  let s₂ := if fresh.length > 0 then save (load s).2 journal₂ else (load s).2
  ((journal₂, jsSlice journal₂.cleanContext journal₂.processedIndex), s₂)

/-- `SessionJournal.commitDecisions` body: append the logs, overwrite
`processedIndex` with the given value, save. -/
def commitDecisions (s : SessionState) (logs : List MemoryLogEntry)
    (newProcessedIndex : Int) : SessionState :=
  let journal := (load s).1
  save (load s).2
    { journal with
      memoryLogs := journal.memoryLogs ++ logs
      processedIndex := newProcessedIndex }

/-- One queued journal operation for a session. -/
inductive JournalOp where
  | append (messages : List CleanMessage)
  | commit (logs : List MemoryLogEntry) (newProcessedIndex : Int)

/-- Apply one operation to the session state (discarding the returned
value, keeping the state). -/
def applyOp (s : SessionState) : JournalOp → SessionState
  | .append msgs => (appendMessages s msgs).2
  | .commit logs idx => commitDecisions s logs idx

/-- Run a FIFO sequence of journal operations. -/
def runOps (s : SessionState) (ops : List JournalOp) : SessionState :=
  ops.foldl applyOp s

/-! ## Persistence discipline (`SessionJournal.save` / `journalPath`)

`save` performs `mkdir(dir)`, `writeFile(tmpPath, serialized)`,
`rename(tmpPath, filePath)` where
`tmpPath = filePath + "." + uuid8 + ".tmp"`.  We model the filesystem as a
map from path to optional content and the save as the exact sequence of
operations it issues. -/

/-- One filesystem operation issued by `save`. -/
inductive FsOp where
  | mkdir (path : String)
  | writeFile (path : String) (content : String)
  | rename (src dst : String)

/-- Filesystem contents: path → file content (if the file exists). -/
def Fs : Type := String → Option String

/-- Effect of one operation on the filesystem.  `rename` atomically moves
`src` onto `dst`; `mkdir` creates no regular file. -/
def applyFsOp (fs : Fs) : FsOp → Fs
  | .mkdir _ => fs
  | .writeFile p c => fun q => if q = p then some c else fs q
  | .rename src dst => fun q =>
      if q = dst then fs src else if q = src then none else fs q

/-- Run a sequence of filesystem operations. -/
def runFsOps (fs : Fs) (ops : List FsOp) : Fs :=
  ops.foldl applyFsOp fs

/-- `sessionKey.replace(/[^a-zA-Z0-9_-]/g, "_")` applied to one character. -/
def sanitizeChar (c : Char) : Char :=
  if c.isAlphanum || c = '_' || c = '-' then c else '_'

/-- Sanitized session key used to name the persisted file: the
character-wise replacement applied to the key's characters. -/
def sanitizeKey (sessionKey : String) : String :=
  String.mk (sessionKey.data.map sanitizeChar)

/-- `SessionJournal.journalPath`: `join(sessionsDir, safe + ".json")`. -/
def journalPath (sessionsDir sessionKey : String) : String :=
  sessionsDir ++ "/" ++ sanitizeKey sessionKey ++ ".json"

/-- The temp path used by `save`: canonical path plus a random 8-char
suffix and `".tmp"`. -/
def tmpPath (filePath uuid8 : String) : String :=
  filePath ++ "." ++ uuid8 ++ ".tmp"

/-- The exact sequence of filesystem operations issued by
`SessionJournal.save`, with the serializer (`JSON.stringify`) abstracted as
a function argument. -/
def saveOps (sessionsDir sessionKey uuid8 : String)
    (serialize : JournalData → String) (data : JournalData) : List FsOp :=
  let filePath := journalPath sessionsDir sessionKey
  [ .mkdir sessionsDir,
    .writeFile (tmpPath filePath uuid8) (serialize data),
    .rename (tmpPath filePath uuid8) filePath ]

/-! ## In-memory cache (`Map` keyed by the raw session key) -/

/-- Set a key in a `Map`-like association list (raw, unsanitized keys). -/
def cacheSet (c : List (String × JournalData)) (k : String) (v : JournalData) :
    List (String × JournalData) :=
  (k, v) :: c.filter (fun e => !(e.1 = k : Bool))

/-- Look a raw key up in the cache. -/
def cacheGet (c : List (String × JournalData)) (k : String) :
    Option JournalData :=
  (c.find? (fun e => e.1 = k)).map Prod.snd

/-! ## Decision loop (decision-maker.ts)

The chat backend is abstracted behind the `ChatAdapter` interface; a whole
adapter behaviour is a function from round number to the `AdapterResponse`
that round's `complete()` returns.  `MemoryOps` methods are modelled as
pure fallible functions (`Except` for `throw`). -/

/-- A pending tool call returned by the model.  The `args` record holds
the only fields the code ever reads; absent fields are `none`. -/
structure ToolArgs where
  text : Option String := none
  category : Option String := none
  importance : Option Rat := none
  memoryId : Option String := none
deriving DecidableEq, Repr

/-- `ToolCallRequest {id, name, args}`. -/
structure ToolCallRequest where
  id : String
  name : String
  args : ToolArgs
deriving DecidableEq, Repr

/-- `AdapterResponse {toolCalls, done}` — one round's output. -/
structure AdapterResponse where
  toolCalls : List ToolCallRequest
  done : Bool
deriving Repr

/-- The `MemoryOps` contract; `.error` models the method throwing. -/
structure MemoryOps where
  store : String → String → Rat → Except String String
  forget : String → Except String Bool
  update : String → String → String → Rat → Except String String

/-- A tool result pushed back into the transcript via
`adapter.pushToolResult(toolCallId, content, isError)`. -/
structure PushedResult where
  toolCallId : String
  content : String
  isError : Bool
deriving DecidableEq, Repr

/-- `LLMDecisionMaker.executeTool`: coerce/validate the arguments, invoke
the matching `MemoryOps` method, build the log entry.  `String(x ?? "")`
becomes `getD ""` and `Number(x ?? 0.7)` becomes `getD (7/10)`; the
`category` cast is unvalidated in the source and stays a plain string. -/
def executeTool (ops : MemoryOps) (name : String) (args : ToolArgs)
    (deltaIndex : Nat) : Except String (Option MemoryLogEntry) :=
  match name with
  | "store_memory" =>
    let text := args.text.getD ""
    let category := args.category.getD "other"
    let importance := args.importance.getD (7 / 10 : Rat)
    if text = "" then .error "text is required for store_memory"
    else
      match ops.store text category importance with
      | .error e => .error e
      | .ok memoryId =>
          .ok (some ⟨deltaIndex, .store, memoryId, text, 0⟩)
  | "forget_memory" =>
    let memoryId := args.memoryId.getD ""
    if memoryId = "" then .error "memoryId is required for forget_memory"
    else
      match ops.forget memoryId with
      | .error e => .error e
      | .ok _ => .ok (some ⟨deltaIndex, .forget, memoryId, "", 0⟩)
  | "update_memory" =>
    let memoryId := args.memoryId.getD ""
    let text := args.text.getD ""
    let category := args.category.getD "other"
    let importance := args.importance.getD (7 / 10 : Rat)
    if memoryId = "" then .error "memoryId is required for update_memory"
    else if text = "" then .error "text is required for update_memory"
    else
      match ops.update memoryId text category importance with
      | .error e => .error e
      | .ok newId => .ok (some ⟨deltaIndex, .update, newId, text, 0⟩)
  | _ => .error ("Unknown tool: " ++ name)

/-- `LLMDecisionMaker.handleToolCall`: run the tool, stamp the timestamp,
push a success or error result, return the log entry (or `none` on
failure). -/
def handleToolCall (ops : MemoryOps) (tc : ToolCallRequest)
    (deltaIndex now : Nat) : Option MemoryLogEntry × PushedResult :=
  match executeTool ops tc.name tc.args deltaIndex with
  | .ok log =>
    let log := log.map (fun l => { l with timestamp := now })
    let resultText :=
      match log with
      | some l => "Success: " ++ l.action.str ++ " memory " ++ l.memoryId
      | none => "No action taken."
    (log, ⟨tc.id, resultText, false⟩)
  | .error e => (none, ⟨tc.id, "Error: " ++ e, true⟩)

/-- Execute one round's tool calls in order, collecting the log entries of
the successful ones and every pushed tool result. -/
def runToolCalls (ops : MemoryOps) (deltaIndex now : Nat) :
    List ToolCallRequest → List MemoryLogEntry × List PushedResult
  | [] => ([], [])
  | tc :: rest =>
    let r := handleToolCall ops tc deltaIndex now
    let rs := runToolCalls ops deltaIndex now rest
    (r.1.toList ++ rs.1, r.2 :: rs.2)

/-- Result of one `evaluate` call: the returned logs, the tool results
pushed into the transcript, and how many times `complete()` was called. -/
structure EvalResult where
  logs : List MemoryLogEntry
  pushed : List PushedResult
  completeCalls : Nat
deriving Repr

/-- `MAX_TOOL_ITERATIONS = 5`. -/
def MAX_TOOL_ITERATIONS : Nat := 5

/-- The `for (let iter = 0; iter < MAX_TOOL_ITERATIONS; iter++)` loop of
`evaluate`: call `complete()`, execute the round's tool calls, break when
the round had no tool calls or signalled `done`.  `fuel` is the number of
iterations left, `iter` the current round number. -/
def evalLoop (ops : MemoryOps) (adapter : Nat → AdapterResponse)
    (deltaIndex now : Nat) : Nat → Nat → EvalResult
  | 0, _ => ⟨[], [], 0⟩
  | fuel + 1, iter =>
    let response := adapter iter
    let round := runToolCalls ops deltaIndex now response.toolCalls
    if response.toolCalls.length = 0 || response.done then
      ⟨round.1, round.2, 1⟩
    else
      let rest := evalLoop ops adapter deltaIndex now fuel (iter + 1)
      ⟨round.1 ++ rest.logs, round.2 ++ rest.pushed, 1 + rest.completeCalls⟩

/-- `LLMDecisionMaker.evaluate`: empty delta short-circuits with no
adapter and no backend call; otherwise every tool call is executed with
`deltaIndex = journal.cleanContext.length` and `timestamp = now`. -/
def evaluate (ops : MemoryOps) (adapter : Nat → AdapterResponse)
    (journal : JournalData) (delta : List CleanMessage) (now : Nat) :
    EvalResult :=
  if delta.length = 0 then ⟨[], [], 0⟩
  else
    evalLoop ops adapter journal.cleanContext.length now
      MAX_TOOL_ITERATIONS 0

/-! ## Guard predicates for the amended journal invariants -/

/-- Every batch passed to `appendMessages` in the sequence is internally
duplicate-free (the code only dedups against the context that existed
before the call, not within a batch). -/
def batchesNodup : List JournalOp → Bool
  | [] => true
  | .append M :: rest => decide M.Nodup && batchesNodup rest
  | .commit _ _ :: rest => batchesNodup rest

/-- Every `commitDecisions` in the sequence is called with a
`newProcessedIndex` between `0` and the length of that session's
`cleanContext` at that moment (the capture orchestrator always passes
exactly the length). -/
def goodCommits : SessionState → List JournalOp → Bool
  | _, [] => true
  | s, .append M :: rest => goodCommits (appendMessages s M).2 rest
  | s, .commit logs idx :: rest =>
    decide (0 ≤ idx) &&
      decide (idx ≤ ((load s).1.cleanContext.length : Int)) &&
      goodCommits (commitDecisions s logs idx) rest

/-- The per-journal bounds `0 ≤ processedIndex ≤ length cleanContext`. -/
def PIBound (j : JournalData) : Prop :=
  0 ≤ j.processedIndex ∧ j.processedIndex ≤ (j.cleanContext.length : Int)

/-- The bounds hold for every journal the session state can produce. -/
def InvPI (s : SessionState) : Prop :=
  (∀ j, s.cache = some j → PIBound j) ∧ (∀ j, s.file = .saved j → PIBound j)

/-- `cleanContext` is duplicate-free in every journal the session state
can produce. -/
def CtxNodup (s : SessionState) : Prop :=
  (∀ j, s.cache = some j → j.cleanContext.Nodup) ∧
  (∀ j, s.file = .saved j → j.cleanContext.Nodup)

/-! ## Concrete fixtures (the spec's §8 examples) -/

/-- A `MemoryOps` whose `store` always succeeds with id `"abc123"`, as in
the spec's end-to-end example. -/
def exampleOps : MemoryOps where
  store := fun _ _ _ => .ok "abc123"
  forget := fun _ => .error "invalid id"
  update := fun _ _ _ _ => .error "invalid id"

/-- The example journal: `cleanContext = ["user: I like dark mode"]`. -/
def exampleJournal : JournalData := ⟨0, [⟨.user, "I like dark mode"⟩], []⟩

/-- The example tool call
`store_memory{text:"I like dark mode", category:"preference", importance:0.8}`. -/
def exampleStoreCall : ToolCallRequest where
  id := "call_1"
  name := "store_memory"
  args :=
    { text := some "I like dark mode"
      category := some "preference"
      importance := some (4 / 5) }

/-- Adapter behaviour for the end-to-end example: round 0 issues the
store call, round 1 is done. -/
def exampleAdapter : Nat → AdapterResponse := fun i =>
  if i = 0 then ⟨[exampleStoreCall], false⟩ else ⟨[], true⟩

/-- Adapter behaviour that requests a tool call on every round and never
signals done. -/
def greedyAdapter : Nat → AdapterResponse :=
  fun _ => ⟨[exampleStoreCall], false⟩

/-- A store call with no arguments at all (missing required `text`). -/
def emptyStoreCall : ToolCallRequest := ⟨"call_err", "store_memory", {}⟩

end OpenClaw

namespace OpenClaw

/-! ## Basic lemmas about `load`, `save`, `appendMessages` -/

/-- Loading never changes an already-loaded state: `load` caches its
result, so a second `load` is a cache hit. -/
theorem load_load (s : SessionState) :
    load (load s).2 = ((load s).1, (load s).2) := by
  obtain ⟨cache, file⟩ := s
  cases cache with
  | some j => rfl
  | none => cases file <;> rfl

/-- Loading right after a save is a cache hit on the saved data. -/
theorem load_save (s : SessionState) (d : JournalData) :
    load (save s d) = (d, save s d) := rfl

/-- The delta returned by `appendMessages` is the unprocessed suffix of
the returned journal's `cleanContext`. -/
theorem appendMessages_delta_eq (s : SessionState) (M : List CleanMessage) :
    (appendMessages s M).1.2 =
      jsSlice (appendMessages s M).1.1.cleanContext
        (appendMessages s M).1.1.processedIndex := rfl

/-- Loading the state left by `appendMessages` yields exactly the journal
it returned, and leaves the state unchanged. -/
theorem load_appendMessages_state (s : SessionState) (M : List CleanMessage) :
    load (appendMessages s M).2 =
      ((appendMessages s M).1.1, (appendMessages s M).2) := by
  unfold appendMessages
  by_cases h :
      (M.filter
        (fun m => !(((load s).1.cleanContext.map msgKey).contains (msgKey m)))).length > 0
  · simp only [h, if_pos]
    exact load_save _ _
  · simp only [h, if_neg, ite_false]
    exact load_load s

/-- When nothing in the batch is fresh, `appendMessages` changes nothing
and returns the loaded journal with its unprocessed suffix. -/
theorem appendMessages_no_fresh (s : SessionState) (M : List CleanMessage)
    (h : M.filter
        (fun m => !(((load s).1.cleanContext.map msgKey).contains (msgKey m))) = []) :
    appendMessages s M =
      (((load s).1,
        jsSlice (load s).1.cleanContext (load s).1.processedIndex), (load s).2) := by
  unfold appendMessages
  simp only [h, List.length_nil, gt_iff_lt, lt_self_iff_false, if_false, ite_false]

/-- After `appendMessages s M`, the key of every message of `M` is present
in the returned journal's `cleanContext`. -/
theorem appendMessages_keys_saturated (s : SessionState) (M : List CleanMessage) :
    ∀ m ∈ M, msgKey m ∈ (appendMessages s M).1.1.cleanContext.map msgKey := by
  intro m hm
  simp only [appendMessages]
  by_cases hc : msgKey m ∈ (load s).1.cleanContext.map msgKey
  · split
    · show msgKey m ∈ ((load s).1.cleanContext ++ List.filter _ M).map msgKey
      rw [List.map_append]
      exact List.mem_append_left _ hc
    · exact hc
  · have hf : m ∈ M.filter
        (fun x => !(((load s).1.cleanContext.map msgKey).contains (msgKey x))) := by
      rw [List.mem_filter]
      refine ⟨hm, ?_⟩
      simpa using hc
    rw [if_pos (List.length_pos_of_mem hf)]
    show msgKey m ∈ ((load s).1.cleanContext ++ _).map msgKey
    rw [List.map_append]
    exact List.mem_append_right _ (List.mem_map_of_mem _ hf)

/-- Filtering the same batch against the journal `appendMessages`
returned keeps nothing: every message's key is now present. -/
theorem appendMessages_refilter_nil (s : SessionState) (M : List CleanMessage) :
    M.filter
      (fun m =>
        !(((appendMessages s M).1.1.cleanContext.map msgKey).contains (msgKey m))) = [] := by
  rw [List.filter_eq_nil_iff]
  intro m hm
  simpa using appendMessages_keys_saturated s M m hm

/-- C1 counterexample input: one fresh message, appended twice with no
intervening `commitDecisions`. -/
theorem appendMessages_twice_delta_ne_nil :
    (appendMessages (appendMessages initialSession [⟨Role.user, "hi"⟩]).2
        [⟨Role.user, "hi"⟩]).1.2 ≠ [] := by decide

/-- C1 (amended): `appendMessages(key, M)` immediately followed by
`appendMessages(key, M)` appends nothing, leaves the session state
unchanged, and returns exactly the same `(journal, delta)` pair as the
first call; the second delta is the still-unprocessed suffix
`cleanContext[processedIndex:]`, not the empty list. -/
theorem appendMessages_second_call_unchanged (s : SessionState)
    (M : List CleanMessage) :
    appendMessages (appendMessages s M).2 M =
      ((appendMessages s M).1, (appendMessages s M).2) := by
  rw [appendMessages_no_fresh]
  · rw [load_appendMessages_state]
    rw [← appendMessages_delta_eq]
  · rw [load_appendMessages_state]
    exact appendMessages_refilter_nil s M

/-- C7: `evaluate` with an empty delta returns `{logs: []}` immediately:
no tool result is pushed and `complete()` is never called, for every
`MemoryOps` backend and every adapter behaviour (so no memory operation
and no chat-backend exchange can occur). -/
theorem evaluate_empty_delta (ops : MemoryOps) (adapter : Nat → AdapterResponse)
    (journal : JournalData) (now : Nat) :
    evaluate ops adapter journal [] now = ⟨[], [], 0⟩ := rfl

/-- C9: `save` writes the full serialized journal to a temp path distinct
from the canonical path and only then renames it over the canonical path:
after every proper prefix of its filesystem operations the canonical file
still holds exactly its old content, and after the rename it holds the
complete new serialization. -/
theorem save_write_then_atomic_rename (sessionsDir sessionKey uuid8 : String)
    (serialize : JournalData → String) (data : JournalData) (fs : Fs) :
    tmpPath (journalPath sessionsDir sessionKey) uuid8 ≠
        journalPath sessionsDir sessionKey ∧
    runFsOps fs ((saveOps sessionsDir sessionKey uuid8 serialize data).take 0)
        (journalPath sessionsDir sessionKey) =
      fs (journalPath sessionsDir sessionKey) ∧
    runFsOps fs ((saveOps sessionsDir sessionKey uuid8 serialize data).take 1)
        (journalPath sessionsDir sessionKey) =
      fs (journalPath sessionsDir sessionKey) ∧
    runFsOps fs ((saveOps sessionsDir sessionKey uuid8 serialize data).take 2)
        (journalPath sessionsDir sessionKey) =
      fs (journalPath sessionsDir sessionKey) ∧
    runFsOps fs (saveOps sessionsDir sessionKey uuid8 serialize data)
        (journalPath sessionsDir sessionKey) = some (serialize data) := by
  have hne : tmpPath (journalPath sessionsDir sessionKey) uuid8 ≠
      journalPath sessionsDir sessionKey := by
    intro h
    have hlen := congrArg String.length h
    have h1 : ("." : String).length = 1 := rfl
    have h4 : (".tmp" : String).length = 4 := rfl
    simp only [tmpPath, String.length_append, h1, h4] at hlen
    omega
  refine ⟨hne, rfl, rfl, ?_, ?_⟩
  · simp [runFsOps, saveOps, applyFsOp, if_neg (Ne.symm hne)]
  · simp [runFsOps, saveOps, applyFsOp]

/-- C10: the key→file map is not injective: the distinct raw session keys
`"a.b"` and `"a:b"` sanitize to the same file path, while the in-memory
cache, keyed by the raw key, keeps separate entries for them. -/
theorem journalPath_not_injective :
    ("a.b" : String) ≠ "a:b" ∧
    (∀ sessionsDir, journalPath sessionsDir "a.b" = journalPath sessionsDir "a:b") ∧
    (∀ v, cacheGet (cacheSet [] "a.b" v) "a:b" = none ∧
        cacheGet (cacheSet [] "a.b" v) "a.b" = some v) := by
  refine ⟨by decide, ?_, ?_⟩
  · intro sessionsDir
    have h : sanitizeKey "a.b" = sanitizeKey "a:b" := by decide
    simp [journalPath, h]
  · intro v
    constructor <;> simp [cacheGet, cacheSet, List.find?]

/-! ## `cleanContext` dedup invariant (C2) -/

/-- C2 counterexample: a single batch repeating one fresh message appends
it twice — the dedup set is built once, before the filter, so the second
copy survives and `cleanContext` holds a duplicate (role, text) pair. -/
theorem appendMessages_duplicate_batch :
    (appendMessages initialSession
        [⟨Role.user, "hi"⟩, ⟨Role.user, "hi"⟩]).1.1.cleanContext =
      [⟨Role.user, "hi"⟩, ⟨Role.user, "hi"⟩] ∧
    ¬ ((appendMessages initialSession
        [⟨Role.user, "hi"⟩, ⟨Role.user, "hi"⟩]).1.1.cleanContext).Nodup := by
  constructor <;> decide

/-- Loading preserves the dedup invariant and yields a duplicate-free
context. -/
theorem ctxNodup_load (s : SessionState) (h : CtxNodup s) :
    ((load s).1.cleanContext).Nodup ∧ CtxNodup (load s).2 := by
  obtain ⟨cache, file⟩ := s
  obtain ⟨h₁, h₂⟩ := h
  cases cache with
  | some j => exact ⟨h₁ j rfl, h₁, h₂⟩
  | none =>
    cases file with
    | saved d =>
      refine ⟨h₂ d rfl, ?_, h₂⟩
      intro j hj
      cases hj
      exact h₂ d rfl
    | missing =>
      refine ⟨List.nodup_nil, ?_, h₂⟩
      intro j hj
      cases hj
      exact List.nodup_nil
    | corrupt =>
      refine ⟨List.nodup_nil, ?_, h₂⟩
      intro j hj
      cases hj
      exact List.nodup_nil

/-- The messages surviving the dedup filter are disjoint from the prior
context and (for a duplicate-free batch) duplicate-free themselves, so
the appended context stays duplicate-free. -/
theorem appendMessages_ctx_nodup (s : SessionState) (M : List CleanMessage)
    (hs : CtxNodup s) (hM : M.Nodup) :
    ((appendMessages s M).1.1.cleanContext).Nodup ∧
      CtxNodup (appendMessages s M).2 := by
  obtain ⟨hj, hs'⟩ := ctxNodup_load s hs
  have hfresh : ((load s).1.cleanContext ++
      M.filter
        (fun m => !(((load s).1.cleanContext.map msgKey).contains (msgKey m)))).Nodup := by
    refine List.Nodup.append hj (hM.filter _) ?_
    intro a ha hafilter
    have hcontains := (List.mem_filter.mp hafilter).2
    simp only [Bool.not_eq_true'] at hcontains
    simp only [List.contains] at hcontains
    simp at hcontains
    exact hcontains a ha rfl
  simp only [appendMessages]
  by_cases hc : (M.filter
      (fun m => !(((load s).1.cleanContext.map msgKey).contains (msgKey m)))).length > 0
  · simp only [hc, if_true]
    refine ⟨hfresh, ?_, ?_⟩ <;> intro j hj' <;> cases hj' <;> exact hfresh
  · simp only [hc, if_false]
    exact ⟨hj, hs'⟩

/-- `commitDecisions` never touches `cleanContext`, so it preserves the
dedup invariant. -/
theorem commitDecisions_ctx_nodup (s : SessionState) (logs : List MemoryLogEntry)
    (idx : Int) (hs : CtxNodup s) : CtxNodup (commitDecisions s logs idx) := by
  obtain ⟨hj, hs'⟩ := ctxNodup_load s hs
  unfold commitDecisions
  refine ⟨?_, ?_⟩ <;> intro j hj' <;> cases hj' <;> exact hj

/-- The dedup invariant holds after any sequence of queue operations
whose append batches are internally duplicate-free. -/
theorem ctxNodup_runOps :
    ∀ (ops : List JournalOp) (s : SessionState), CtxNodup s →
      batchesNodup ops = true → CtxNodup (runOps s ops)
  | [], _, hs, _ => hs
  | .append M :: rest, s, hs, hb => by
    rw [batchesNodup, Bool.and_eq_true, decide_eq_true_eq] at hb
    exact ctxNodup_runOps rest _ (appendMessages_ctx_nodup s M hs hb.1).2 hb.2
  | .commit logs idx :: rest, s, hs, hb => by
    rw [batchesNodup] at hb
    exact ctxNodup_runOps rest _ (commitDecisions_ctx_nodup s logs idx hs) hb

/-- C2 (amended): provided every appended batch is itself free of
repeated (role, text) pairs, `cleanContext` never contains two entries
with the same pair after any sequence of journal operations; and a batch
whose messages are all already present in `cleanContext` changes nothing,
so appending an already-present message never increases the length.
(A batch that repeats a *new* message does append it twice — the dedup
set is computed before the filter runs.) -/
theorem cleanContext_dedup (s : SessionState) :
    (∀ ops, batchesNodup ops = true →
        ((load (runOps initialSession ops)).1.cleanContext).Nodup) ∧
    (∀ M, (∀ m ∈ M, m ∈ (load s).1.cleanContext) →
        (appendMessages s M).1.1 = (load s).1) := by
  constructor
  · intro ops hb
    have hinv : CtxNodup initialSession := by
      constructor <;> intro j hj <;> cases hj
    exact (ctxNodup_load _ (ctxNodup_runOps ops initialSession hinv hb)).1
  · intro M hM
    have h : M.filter
        (fun m => !(((load s).1.cleanContext.map msgKey).contains (msgKey m))) = [] := by
      rw [List.filter_eq_nil_iff]
      intro m hm
      simpa using List.mem_map_of_mem msgKey (hM m hm)
    rw [appendMessages_no_fresh s M h]

/-! ## `processedIndex` invariant (C3) -/

/-- C3 counterexample: `commitDecisions` stores `newProcessedIndex`
verbatim; committing index 5 on an empty session leaves
`processedIndex = 5 > 0 = length cleanContext`. -/
theorem commitDecisions_unclamped :
    (load (commitDecisions initialSession [] 5)).1.processedIndex = 5 ∧
    (load (commitDecisions initialSession [] 5)).1.cleanContext = [] ∧
    ¬ ((load (commitDecisions initialSession [] 5)).1.processedIndex ≤
        ((load (commitDecisions initialSession [] 5)).1.cleanContext.length : Int)) := by
  refine ⟨rfl, rfl, by decide⟩

/-- Loading preserves the index bounds and the loaded journal obeys
them. -/
theorem invPI_load (s : SessionState) (h : InvPI s) :
    PIBound (load s).1 ∧ InvPI (load s).2 := by
  obtain ⟨cache, file⟩ := s
  obtain ⟨h₁, h₂⟩ := h
  cases cache with
  | some j => exact ⟨h₁ j rfl, h₁, h₂⟩
  | none =>
    cases file with
    | saved d =>
      refine ⟨h₂ d rfl, ?_, h₂⟩
      intro j hj
      cases hj
      exact h₂ d rfl
    | missing =>
      refine ⟨⟨le_refl 0, by decide⟩, ?_, h₂⟩
      intro j hj
      cases hj
      exact ⟨le_refl 0, by decide⟩
    | corrupt =>
      refine ⟨⟨le_refl 0, by decide⟩, ?_, h₂⟩
      intro j hj
      cases hj
      exact ⟨le_refl 0, by decide⟩

/-- Appending only grows `cleanContext` and keeps `processedIndex`, so
the bounds survive. -/
theorem invPI_appendMessages (s : SessionState) (M : List CleanMessage)
    (hs : InvPI s) : InvPI (appendMessages s M).2 := by
  obtain ⟨hb, hs'⟩ := invPI_load s hs
  have hgrow : PIBound
      { (load s).1 with
        cleanContext := (load s).1.cleanContext ++
          M.filter
            (fun m => !(((load s).1.cleanContext.map msgKey).contains (msgKey m))) } := by
    obtain ⟨hb₀, hb₁⟩ := hb
    refine ⟨hb₀, ?_⟩
    simp only [List.length_append]
    omega
  simp only [appendMessages]
  by_cases hc : (M.filter
      (fun m => !(((load s).1.cleanContext.map msgKey).contains (msgKey m)))).length > 0
  · simp only [hc, if_true]
    refine ⟨?_, ?_⟩ <;> intro j hj' <;> cases hj' <;> exact hgrow
  · simp only [hc, if_false]
    exact hs'

/-- A commit whose index is within the loaded context's bounds preserves
the invariant. -/
theorem invPI_commitDecisions (s : SessionState) (logs : List MemoryLogEntry)
    (idx : Int) (h0 : 0 ≤ idx)
    (hlen : idx ≤ ((load s).1.cleanContext.length : Int)) :
    InvPI (commitDecisions s logs idx) := by
  have hb : PIBound
      { (load s).1 with
        memoryLogs := (load s).1.memoryLogs ++ logs
        processedIndex := idx } := ⟨h0, hlen⟩
  unfold commitDecisions
  refine ⟨?_, ?_⟩ <;> intro j hj' <;> cases hj' <;> exact hb

/-- The bounds hold after any sequence of queue operations whose commits
stay within the context length at commit time. -/
theorem invPI_runOps :
    ∀ (ops : List JournalOp) (s : SessionState), InvPI s →
      goodCommits s ops = true → InvPI (runOps s ops)
  | [], _, hs, _ => hs
  | .append M :: rest, s, hs, hg =>
    invPI_runOps rest _ (invPI_appendMessages s M hs) hg
  | .commit logs idx :: rest, s, hs, hg => by
    rw [goodCommits, Bool.and_eq_true, Bool.and_eq_true,
      decide_eq_true_eq, decide_eq_true_eq] at hg
    exact invPI_runOps rest _
      (invPI_commitDecisions s logs idx hg.1.1 hg.1.2) hg.2

/-- C3 (amended): `commitDecisions` stores the given `newProcessedIndex`
verbatim, without clamping; therefore the invariant
`0 ≤ processedIndex ≤ length cleanContext` holds after every operation
sequence in which each commit passes an index within the bounds at that
moment — in particular under the capture orchestrator, which always
passes `cleanContext.length`, after which `processedIndex` equals
`length cleanContext` exactly. -/
theorem processedIndex_invariant :
    (∀ ops, goodCommits initialSession ops = true →
        PIBound (load (runOps initialSession ops)).1) ∧
    (∀ s logs,
        (load (commitDecisions s logs
            ((load s).1.cleanContext.length))).1.processedIndex =
          (((load (commitDecisions s logs
            ((load s).1.cleanContext.length))).1.cleanContext.length : Int))) := by
  constructor
  · intro ops hg
    have hinv : InvPI initialSession := by
      constructor <;> intro j hj <;> cases hj
    exact (invPI_load _ (invPI_runOps ops initialSession hinv hg)).1
  · intro s logs
    simp only [commitDecisions, load_save]

/-! ## Load-failure fallback (C8) -/

/-- C8: when the session's journal file is missing or `JSON.parse` throws
on its content (and nothing is cached yet), `load` silently yields the
fresh empty journal, and `appendMessages` / `commitDecisions` complete
normally on that fresh state instead of propagating the read/parse
failure. -/
theorem load_failure_fresh (s : SessionState) (hc : s.cache = none)
    (hf : s.file = .missing ∨ s.file = .corrupt) :
    (load s).1 = freshJournal ∧
    (∀ M, (appendMessages s M).1.1 = ⟨0, M, []⟩ ∧ (appendMessages s M).1.2 = M) ∧
    (∀ logs idx, (load (commitDecisions s logs idx)).1 = ⟨idx, [], logs⟩) := by
  obtain ⟨cache, file⟩ := s
  cases hc
  have hload : load ⟨none, file⟩ =
      (freshJournal, ⟨some freshJournal, file⟩) := by
    rcases hf with hf | hf <;> cases hf <;> rfl
  have hfilter : ∀ M : List CleanMessage,
      M.filter
        (fun m => !((freshJournal.cleanContext.map msgKey).contains (msgKey m))) = M := by
    intro M
    rw [List.filter_eq_self]
    intro m _
    rfl
  refine ⟨by rw [hload], ?_, ?_⟩
  · intro M
    simp only [appendMessages, hload, hfilter]
    by_cases hM : M = []
    · subst hM
      exact ⟨rfl, rfl⟩
    · rw [if_pos (List.length_pos_of_ne_nil hM)]
      exact ⟨rfl, rfl⟩
  · intro logs idx
    simp only [commitDecisions, hload, load_save]
    rfl

/-! ## Decision-loop lemmas (C4, C5, C6) -/

/-- A failing tool call pushes the failure message back with
`isError = true` and produces no log entry. -/
theorem handleToolCall_error (ops : MemoryOps) (tc : ToolCallRequest)
    (deltaIndex now : Nat) (e : String)
    (h : executeTool ops tc.name tc.args deltaIndex = .error e) :
    handleToolCall ops tc deltaIndex now = (none, ⟨tc.id, "Error: " ++ e, true⟩) := by
  unfold handleToolCall
  rw [h]

/-- Every tool call of a round gets exactly one pushed result, error or
not: the execution loop never stops early within a round. -/
theorem runToolCalls_pushed_length (ops : MemoryOps) (deltaIndex now : Nat) :
    ∀ tcs : List ToolCallRequest,
      (runToolCalls ops deltaIndex now tcs).2.length = tcs.length
  | [] => rfl
  | _ :: rest => by
    simp only [runToolCalls, List.length_cons,
      runToolCalls_pushed_length ops deltaIndex now rest]

/-- The number of `complete()` calls the loop makes is determined by the
adapter's responses alone — tool failures never shorten or abort it. -/
theorem evalLoop_completeCalls_ops_free (ops₁ ops₂ : MemoryOps)
    (adapter : Nat → AdapterResponse) (d₁ d₂ n₁ n₂ : Nat) :
    ∀ fuel iter,
      (evalLoop ops₁ adapter d₁ n₁ fuel iter).completeCalls =
        (evalLoop ops₂ adapter d₂ n₂ fuel iter).completeCalls
  | 0, _ => rfl
  | fuel + 1, iter => by
    simp only [evalLoop]
    split
    · rfl
    · simp only [EvalResult.mk.injEq]
      rw [evalLoop_completeCalls_ops_free ops₁ ops₂ adapter d₁ d₂ n₁ n₂ fuel (iter + 1)]

/-- C4: a failing tool call (missing required argument, unknown tool
name, or a throwing `MemoryOps` method) is locally recovered: the error
message is pushed with `isError = true`, no `MemoryLogEntry` is produced
for that call, every other call of the round still executes and gets a
pushed result, and the round structure of `evaluate` (hence its
termination) is unaffected by any operation outcome. -/
theorem toolFailure_is_local :
    (∀ (ops : MemoryOps) (tc : ToolCallRequest) (d now : Nat) (e : String),
        executeTool ops tc.name tc.args d = .error e →
        handleToolCall ops tc d now = (none, ⟨tc.id, "Error: " ++ e, true⟩)) ∧
    (∀ (ops : MemoryOps) (d now : Nat) (tcs : List ToolCallRequest),
        (runToolCalls ops d now tcs).2.length = tcs.length) ∧
    (∀ (ops : MemoryOps) (d now : Nat) (e : String)
        (pre post : List ToolCallRequest) (tc : ToolCallRequest),
        executeTool ops tc.name tc.args d = .error e →
        (runToolCalls ops d now (pre ++ tc :: post)).1 =
          (runToolCalls ops d now pre).1 ++ (runToolCalls ops d now post).1) ∧
    (∀ (ops₁ ops₂ : MemoryOps) (adapter : Nat → AdapterResponse)
        (journal : JournalData) (delta : List CleanMessage) (now₁ now₂ : Nat),
        (evaluate ops₁ adapter journal delta now₁).completeCalls =
          (evaluate ops₂ adapter journal delta now₂).completeCalls) := by
  refine ⟨handleToolCall_error, runToolCalls_pushed_length, ?_, ?_⟩
  · intro ops d now e pre post tc h
    induction pre with
    | nil =>
      simp only [List.nil_append, runToolCalls, handleToolCall_error ops tc d now e h,
        Option.toList_none]
    | cons hd tl ih =>
      simp only [List.cons_append, runToolCalls, List.append_eq, ih, List.append_assoc]
  · intro ops₁ ops₂ adapter journal delta now₁ now₂
    unfold evaluate
    split
    · rfl
    · exact evalLoop_completeCalls_ops_free ops₁ ops₂ adapter _ _ now₁ now₂
        MAX_TOOL_ITERATIONS 0

/-- The loop can call `complete()` at most once per remaining iteration. -/
theorem evalLoop_completeCalls_le (ops : MemoryOps)
    (adapter : Nat → AdapterResponse) (d now : Nat) :
    ∀ fuel iter, (evalLoop ops adapter d now fuel iter).completeCalls ≤ fuel
  | 0, _ => le_refl 0
  | fuel + 1, iter => by
    simp only [evalLoop]
    split
    · simp
    · have ih := evalLoop_completeCalls_le ops adapter d now fuel (iter + 1)
      show 1 + (evalLoop ops adapter d now fuel (iter + 1)).completeCalls ≤ fuel + 1
      omega

/-- When every round returns tool calls and never signals done, the loop
runs out its full fuel. -/
theorem evalLoop_completeCalls_greedy (ops : MemoryOps)
    (adapter : Nat → AdapterResponse) (d now : Nat)
    (h : ∀ i, (adapter i).toolCalls ≠ [] ∧ (adapter i).done = false) :
    ∀ fuel iter, (evalLoop ops adapter d now fuel iter).completeCalls = fuel
  | 0, _ => rfl
  | fuel + 1, iter => by
    have hcond : ((adapter iter).toolCalls.length = 0 || (adapter iter).done) = false := by
      simp [List.length_eq_zero, (h iter).1, (h iter).2]
    simp only [evalLoop, hcond, Bool.false_eq_true, if_false]
    show 1 + (evalLoop ops adapter d now fuel (iter + 1)).completeCalls = fuel + 1
    rw [evalLoop_completeCalls_greedy ops adapter d now h fuel (iter + 1)]
    omega

/-- C5: `evaluate` calls `complete()` at most `MAX_TOOL_ITERATIONS = 5`
times for every adapter behaviour; an adapter that requests tool calls on
every round and never signals done gets exactly 5 calls — the cap is
reached and no further model call is made, while the result still carries
the executed operations' logs. -/
theorem evaluate_bounded_rounds :
    (∀ (ops : MemoryOps) (adapter : Nat → AdapterResponse)
        (journal : JournalData) (delta : List CleanMessage) (now : Nat),
        (evaluate ops adapter journal delta now).completeCalls ≤ MAX_TOOL_ITERATIONS) ∧
    (∀ (ops : MemoryOps) (adapter : Nat → AdapterResponse)
        (journal : JournalData) (delta : List CleanMessage) (now : Nat),
        delta ≠ [] →
        (∀ i, (adapter i).toolCalls ≠ [] ∧ (adapter i).done = false) →
        (evaluate ops adapter journal delta now).completeCalls = MAX_TOOL_ITERATIONS) := by
  constructor
  · intro ops adapter journal delta now
    unfold evaluate
    split
    · exact Nat.zero_le _
    · exact evalLoop_completeCalls_le ops adapter _ now MAX_TOOL_ITERATIONS 0
  · intro ops adapter journal delta now hδ hgreedy
    unfold evaluate
    rw [if_neg (by simpa using hδ)]
    exact evalLoop_completeCalls_greedy ops adapter _ now hgreedy MAX_TOOL_ITERATIONS 0

/-- Every log entry `executeTool` builds records the `deltaIndex` it was
given. -/
theorem executeTool_deltaIndex (ops : MemoryOps) (name : String)
    (args : ToolArgs) (d : Nat) (l : MemoryLogEntry)
    (h : executeTool ops name args d = .ok (some l)) : l.deltaIndex = d := by
  unfold executeTool at h
  split at h
  all_goals (try simp only [] at h)
  all_goals repeat' split at h
  all_goals (try (rw [Except.ok.injEq, Option.some.injEq] at h; subst h))
  all_goals (first | rfl | simp at h)

/-- Every log entry `handleToolCall` returns carries the given
`deltaIndex` and timestamp. -/
theorem handleToolCall_deltaIndex (ops : MemoryOps) (tc : ToolCallRequest)
    (d now : Nat) (l : MemoryLogEntry)
    (h : (handleToolCall ops tc d now).1 = some l) :
    l.deltaIndex = d ∧ l.timestamp = now := by
  unfold handleToolCall at h
  split at h
  · rename_i log heq
    cases log with
    | none => simp at h
    | some l₀ =>
      simp only [Option.map_some, Option.some.injEq] at h
      cases h
      exact ⟨executeTool_deltaIndex ops tc.name tc.args d l₀ heq, rfl⟩
  · simp at h

/-- Every log entry of a round carries the given `deltaIndex` and
timestamp. -/
theorem runToolCalls_deltaIndex (ops : MemoryOps) (d now : Nat) :
    ∀ (tcs : List ToolCallRequest) (l : MemoryLogEntry),
      l ∈ (runToolCalls ops d now tcs).1 →
      l.deltaIndex = d ∧ l.timestamp = now
  | tc :: rest, l, hl => by
    simp only [runToolCalls, List.mem_append] at hl
    rcases hl with hl | hl
    · rcases Option.mem_toList.mp hl with h
      exact handleToolCall_deltaIndex ops tc d now l h
    · exact runToolCalls_deltaIndex ops d now rest l hl

/-- Every log entry the loop accumulates carries the given `deltaIndex`
and timestamp. -/
theorem evalLoop_deltaIndex (ops : MemoryOps) (adapter : Nat → AdapterResponse)
    (d now : Nat) :
    ∀ (fuel iter : Nat) (l : MemoryLogEntry),
      l ∈ (evalLoop ops adapter d now fuel iter).logs →
      l.deltaIndex = d ∧ l.timestamp = now
  | 0, _, l, hl => by simp [evalLoop] at hl
  | fuel + 1, iter, l, hl => by
    rw [evalLoop] at hl
    split at hl
    · exact runToolCalls_deltaIndex ops d now _ l hl
    · rcases List.mem_append.mp hl with hl | hl
      · exact runToolCalls_deltaIndex ops d now _ l hl
      · exact evalLoop_deltaIndex ops adapter d now fuel (iter + 1) l hl

/-- C6: every `MemoryLogEntry` returned by `evaluate` has `deltaIndex`
equal to the length of `journal.cleanContext` at evaluation time (and the
call's wall-clock timestamp); and on the spec's end-to-end example —
journal `["user: I like dark mode"]`, the model issuing
`store_memory{text:"I like dark mode", category:"preference",
importance:0.8}`, `MemoryOps.store` returning `"abc123"` — the returned
logs are exactly
`[{deltaIndex:1, action:"store", memoryId:"abc123",
text:"I like dark mode"}]`. -/
theorem evaluate_deltaIndex_and_example :
    (∀ (ops : MemoryOps) (adapter : Nat → AdapterResponse)
        (journal : JournalData) (delta : List CleanMessage) (now : Nat)
        (l : MemoryLogEntry),
        l ∈ (evaluate ops adapter journal delta now).logs →
        l.deltaIndex = journal.cleanContext.length ∧ l.timestamp = now) ∧
    (∀ now, (evaluate exampleOps exampleAdapter exampleJournal
        exampleJournal.cleanContext now).logs =
      [⟨1, .store, "abc123", "I like dark mode", now⟩]) := by
  constructor
  · intro ops adapter journal delta now l hl
    unfold evaluate at hl
    split at hl
    · simp at hl
    · exact evalLoop_deltaIndex ops adapter journal.cleanContext.length now
        MAX_TOOL_ITERATIONS 0 l hl
  · intro now
    rfl

/-! ## Witnesses: the hypothesized theorems evaluated at concrete inputs -/

/-- Witness for C2 at one concrete duplicate-free batch. -/
theorem cleanContext_dedup_witness :
    ((load (runOps initialSession
        [.append [⟨Role.user, "hi"⟩]])).1.cleanContext).Nodup ∧
    (appendMessages (appendMessages initialSession [⟨Role.user, "hi"⟩]).2
        [⟨Role.user, "hi"⟩]).1.1 =
      (load (appendMessages initialSession [⟨Role.user, "hi"⟩]).2).1 := by
  constructor
  · exact (cleanContext_dedup initialSession).1
      [.append [⟨Role.user, "hi"⟩]] (by decide)
  · exact (cleanContext_dedup
      (appendMessages initialSession [⟨Role.user, "hi"⟩]).2).2
      [⟨Role.user, "hi"⟩] (by decide)

/-- Witness for C3 at one concrete well-indexed operation sequence. -/
theorem processedIndex_invariant_witness :
    PIBound (load (runOps initialSession
        [.append [⟨Role.user, "hi"⟩], .commit [] 1])).1 ∧
    (load (commitDecisions initialSession []
        ((load initialSession).1.cleanContext.length))).1.processedIndex =
      (((load (commitDecisions initialSession []
        ((load initialSession).1.cleanContext.length))).1.cleanContext.length : Int)) := by
  constructor
  · exact processedIndex_invariant.1
      [.append [⟨Role.user, "hi"⟩], .commit [] 1] (by decide)
  · exact processedIndex_invariant.2 initialSession []

/-- Witness for C4: a `store_memory` call with no `text` argument. -/
theorem toolFailure_is_local_witness :
    handleToolCall exampleOps emptyStoreCall 1 7 =
      (none, ⟨"call_err", "Error: text is required for store_memory", true⟩) :=
  toolFailure_is_local.1 exampleOps emptyStoreCall 1 7
    "text is required for store_memory" rfl

/-- Witness for C5: a greedy adapter exhausts exactly the 5-round cap. -/
theorem evaluate_bounded_rounds_witness :
    (evaluate exampleOps greedyAdapter exampleJournal
        exampleJournal.cleanContext 0).completeCalls = MAX_TOOL_ITERATIONS :=
  evaluate_bounded_rounds.2 exampleOps greedyAdapter exampleJournal
    exampleJournal.cleanContext 0 (by decide)
    (fun _ => ⟨by simp [greedyAdapter], rfl⟩)

/-- Witness for C6 at the spec's end-to-end example. -/
theorem evaluate_deltaIndex_witness :
    (⟨1, MAction.store, "abc123", "I like dark mode", 42⟩ :
        MemoryLogEntry).deltaIndex = exampleJournal.cleanContext.length ∧
    (⟨1, MAction.store, "abc123", "I like dark mode", 42⟩ :
        MemoryLogEntry).timestamp = 42 :=
  evaluate_deltaIndex_and_example.1 exampleOps exampleAdapter exampleJournal
    exampleJournal.cleanContext 42 _
    (by rw [evaluate_deltaIndex_and_example.2 42]
        exact List.mem_singleton_self _)

/-- Witness for C8 at the fresh (file-missing) session. -/
theorem load_failure_fresh_witness :
    (load initialSession).1 = freshJournal ∧
    (appendMessages initialSession [⟨Role.user, "hi"⟩]).1.1 =
      ⟨0, [⟨Role.user, "hi"⟩], []⟩ ∧
    (load (commitDecisions initialSession [] 0)).1 = ⟨0, [], []⟩ := by
  obtain ⟨h1, h2, h3⟩ := load_failure_fresh initialSession rfl (Or.inl rfl)
  exact ⟨h1, (h2 [⟨Role.user, "hi"⟩]).1, h3 [] 0⟩

end OpenClaw
